import Mathlib

/-
Shallow embedding of the scrape-a-ris synchronization core:
  * src/db/mongodb.py   — MongoDatabase.save_attachment / save_submission
  * src/risscraper/queue.py — Queue.add / get / __len__ / has_next /
    resolve_job / mark_failed / garbage_collect

MongoDB collections are modelled as lists of documents traversed in natural
order (find_one / find_and_modify act on the first match), document field
mappings as association lists looked up by key, ObjectIds as naturals drawn
from a per-state counter, and datetime.utcnow() as an explicit clock value
passed to each operation.  Fallible code paths (uncaught KeyError/TypeError,
a failing assert) are modelled by returning none.
-/

namespace ScrapeARis

/-- Document field values: strings, integers, a DBRef (collection name and
ObjectId), a list of DBRefs into one collection (a dereferenced `attachments`
array), and an embedded sub-document carrying a `numeric_id` plus an opaque
rendering of its remaining data (the literal `superordinate` payload). -/
inductive Val where
  | vstr : String → Val
  | vint : Int → Val
  | vref : String → Nat → Val
  | vrefs : String → List Nat → Val
  | vsub : Int → String → Val
  deriving DecidableEq, Repr

/-- A document's field mapping, as an association list keyed by field name. -/
abbrev Fields := List (String × Val)

/-- Key lookup in a field mapping (first entry wins, as in a Python dict). -/
def lookupField : Fields → String → Option Val
  | [], _ => none
  | (k, v) :: rest, key => if k == key then some v else lookupField rest key

/-- Assign one field: replace the first entry with this key, or append. -/
def setField : Fields → String → Val → Fields
  | [], k, v => [(k, v)]
  | (k', v') :: rest, k, v =>
      if k' == k then (k, v) :: rest else (k', v') :: setField rest k v

/-- Apply a MongoDB `$set` modifier: assign every listed field in order. -/
def applySet (f : Fields) (set : Fields) : Fields :=
  set.foldl (fun acc kv => setField acc kv.1 kv.2) f

/-- A stored document: its ObjectId and its field mapping. -/
structure StoredDoc where
  oid : Nat
  fields : Fields
  deriving DecidableEq, Repr

/-- A GridFS file: ObjectId, filename, realm tag, byte length, content
digest, and the raw bytes.  `gridfs` records length and md5 at put time. -/
structure Blob where
  oid : Nat
  filename : String
  ags : String
  length : Nat
  md5 : Nat
  content : List Nat
  deriving DecidableEq, Repr

/-- Stand-in for hashlib's md5 hexdigest: a deterministic 128-bit content
digest computed over the full byte content.  (The real md5 is external
library code; only its role as a content fingerprint matters here.) -/
def md5hash (bs : List Nat) : Nat :=
  bs.foldl (fun acc b => (acc * 131 + b + 7) % (2 ^ 128)) 5381

/-- One write issued against the store, for counting side effects:
a GridFS put, or an insert/partial update on a document collection. -/
inductive WriteOp where
  | fsPut (oid : Nat)
  | attInsert (oid : Nat)
  | attUpdate (oid : Nat) (set : Fields)
  | subInsert (oid : Nat)
  | subUpdate (oid : Nat) (set : Fields)
  deriving DecidableEq, Repr

/-- The MongoDatabase-visible state: attachments and submissions
collections, GridFS files, a fresh-ObjectId counter, and the list of writes
issued so far (newest last). -/
structure DBState where
  attachments : List StoredDoc
  submissions : List StoredDoc
  fsfiles : List Blob
  nextId : Nat
  log : List WriteOp
  deriving DecidableEq, Repr

/-- Modelled from the spec: the Attachment domain object (the scraper's
model class is not under src/).  Per §3/§6 it exposes a stable identifier,
filename, raw byte content, a last_modified stamp, and further storable
fields (`extra`). -/
structure Attachment where
  identifier : String
  filename : String
  content : List Nat
  last_modified : Int
  extra : Fields
  deriving DecidableEq, Repr

/-- Modelled from the spec: `attachment.dict()`, the storable field mapping
of a scraped Attachment.  A freshly scraped object carries no stored `file`
reference and no `ags` tag (save_attachment adds both itself); the raw
`content` is carried separately on the object and is deleted from the
mapping by save_attachment (`del attachment_fresh['content']`) before any
diffing, so it never appears here. -/
def Attachment.dict (a : Attachment) : Fields :=
  ("identifier", Val.vstr a.identifier) :: ("filename", Val.vstr a.filename) ::
    ("last_modified", Val.vint a.last_modified) :: a.extra

/-- `get_object(collection, key, value)`: find_one on the query
`{'ags': AGS, key: value}` — the first document matching realm and key. -/
def findByAgsField (docs : List StoredDoc) (ags : String) (key : String) (v : Val) :
    Option StoredDoc :=
  docs.find? (fun d =>
    lookupField d.fields "ags" == some (Val.vstr ags) &&
    lookupField d.fields key == some v)

/-- The `file_changed` computation of save_attachment for a stored
attachment document: if the stored doc has no `file` key, or the referenced
fs.files document does not exist, file_changed stays False; otherwise the
stored blob's length is compared first and its md5 digest only on equal
lengths.  A stored `file` value that is not a DBRef fails the assert
(`assert type(attachment_stored['file']) == DBRef`), modelled as none. -/
def fileChanged (st : DBState) (stored : StoredDoc) (content : List Nat) :
    Option Bool :=
  match lookupField stored.fields "file" with
  | none => some false
  | some (Val.vref _ fid) =>
      match st.fsfiles.find? (fun b => b.oid == fid) with
      | none => some false
      | some b =>
          if b.length != content.length then some true
          else some (b.md5 != md5hash content)
  | some _ => none

/-- The field diff loop shared by save_attachment / save_submission /
save_session: walk the fresh mapping, skip `last_modified`, and keep a
field when it is absent from the stored document or stored with a
different value. -/
def diffFields : Fields → Fields → Fields
  | [], _ => []
  | (k, v) :: rest, sf =>
      if k == "last_modified" then diffFields rest sf
      else
        match lookupField sf k with
        | none => (k, v) :: diffFields rest sf
        | some v' =>
            if v' != v then (k, v) :: diffFields rest sf else diffFields rest sf

/-- `collection.update({'_id': oid}, {'$set': set})`: apply the `$set` to
the first document carrying this ObjectId. -/
def updateFirstDoc : List StoredDoc → Nat → Fields → List StoredDoc
  | [], _, _ => []
  | d :: rest, oid, set =>
      if d.oid == oid then { d with fields := applySet d.fields set } :: rest
      else d :: updateFirstDoc rest oid set

/-- MongoDatabase.save_attachment (src/db/mongodb.py lines 106-176).
Looks up the stored attachment by (ags, identifier); computes file_changed
against the stored blob; puts a new GridFS file when the attachment is new,
or when file_changed holds and the stored document carries no
`depublication` marker; then inserts the fresh document, or computes the
changed-field set (carrying the stored `file` reference forward whenever
the fresh mapping lacks `file`) and issues a partial `$set` update exactly
when file_changed holds or that set is non-empty.  Returns the document's
ObjectId; none models an uncaught exception. -/
def save_attachment (st : DBState) (ags : String) (a : Attachment) :
    Option (DBState × Nat) :=
  let stored := findByAgsField st.attachments ags "identifier" (Val.vstr a.identifier)
  let fresh0 := a.dict
  match stored with
  | none =>
      let blob : Blob :=
        ⟨st.nextId, a.filename, ags, a.content.length, md5hash a.content, a.content⟩
      let st1 : DBState :=
        { st with fsfiles := st.fsfiles ++ [blob], nextId := st.nextId + 1,
                  log := st.log ++ [WriteOp.fsPut blob.oid] }
      let fresh := fresh0 ++ [("file", Val.vref "fs.files" blob.oid), ("ags", Val.vstr ags)]
      let doc : StoredDoc := ⟨st1.nextId, fresh⟩
      some ({ st1 with attachments := st1.attachments ++ [doc],
                       nextId := st1.nextId + 1,
                       log := st1.log ++ [WriteOp.attInsert doc.oid] }, doc.oid)
  | some d =>
      match fileChanged st d a.content with
      | none => none
      | some fc =>
          let doPut := fc && (lookupField d.fields "depublication").isNone
          let st1 : DBState :=
            if doPut then
              { st with
                  fsfiles := st.fsfiles ++
                    [⟨st.nextId, a.filename, ags, a.content.length,
                      md5hash a.content, a.content⟩],
                  nextId := st.nextId + 1,
                  log := st.log ++ [WriteOp.fsPut st.nextId] }
            else st
          let fresh :=
            if doPut then
              fresh0 ++ [("file", Val.vref "fs.files" st.nextId), ("ags", Val.vstr ags)]
            else fresh0 ++ [("ags", Val.vstr ags)]
          let set0 := diffFields fresh d.fields
          let set1 :=
            match lookupField fresh "file", lookupField d.fields "file" with
            | none, some fv => set0 ++ [("file", fv)]
            | _, _ => set0
          if fc = true ∨ set1 ≠ [] then
            match lookupField fresh "last_modified" with
            | none => none
            | some lmv =>
                let set2 := set1 ++ [("last_modified", lmv)]
                some ({ st1 with
                          attachments := updateFirstDoc st1.attachments d.oid set2,
                          log := st1.log ++ [WriteOp.attUpdate d.oid set2] }, d.oid)
          else some (st1, d.oid)

/-- Modelled from the spec: the Submission domain object (the scraper's
model class is not under src/).  Per §3 it exposes a numeric_id, an
identifier, a last_modified stamp, further storable fields, an optional
list of nested Attachment objects, and an optional superordinate given as
embedded data with a `numeric_id` plus the rest of its payload. -/
structure Submission where
  numeric_id : Int
  identifier : String
  last_modified : Int
  extra : Fields
  attachments : Option (List Attachment)
  superordinate : Option (Int × String)
  deriving DecidableEq, Repr

/-- Modelled from the spec: the scalar part of `submission.dict()` — the
storable fields other than the nested `attachments` and `superordinate`
entries, which save_submission rewrites in place. -/
def Submission.dictBase (s : Submission) : Fields :=
  ("numeric_id", Val.vint s.numeric_id) :: ("identifier", Val.vstr s.identifier) ::
    ("last_modified", Val.vint s.last_modified) :: s.extra

/-- The attachment-dereferencing loop of save_submission: sync each nested
attachment in order, threading the database state, and collect the
resulting ObjectIds. -/
def saveAttachmentList (st : DBState) (ags : String) :
    List Attachment → Option (DBState × List Nat)
  | [] => some (st, [])
  | a :: rest =>
      match save_attachment st ags a with
      | none => none
      | some (st', oid) =>
          match saveAttachmentList st' ags rest with
          | none => none
          | some (st'', oids) => some (st'', oid :: oids)

/-- The insert-or-diff step of save_submission (src/db/mongodb.py lines
201-218): when a stored document exists, compute the changed-field set and
issue a partial `$set` update of exactly those fields plus a refreshed
last_modified whenever the set is non-empty, returning the stored id;
otherwise insert the fresh document and return its new id. -/
def submissionUpsert (st1 : DBState) (stored : Option StoredDoc) (fresh2 : Fields) :
    Option (DBState × Nat) :=
  match stored with
  | some d =>
      let set0 := diffFields fresh2 d.fields
      if set0 ≠ [] then
        match lookupField fresh2 "last_modified" with
        | none => none
        | some lmv =>
            let set1 := set0 ++ [("last_modified", lmv)]
            some ({ st1 with
                      submissions := updateFirstDoc st1.submissions d.oid set1,
                      log := st1.log ++ [WriteOp.subUpdate d.oid set1] }, d.oid)
      else some (st1, d.oid)
  | none =>
      let doc : StoredDoc := ⟨st1.nextId, fresh2⟩
      some ({ st1 with submissions := st1.submissions ++ [doc],
                       nextId := st1.nextId + 1,
                       log := st1.log ++ [WriteOp.subInsert doc.oid] }, doc.oid)

/-- MongoDatabase.save_submission (src/db/mongodb.py lines 178-218).
Looks up the stored submission by (ags, numeric_id); tags the fresh mapping
with ags; replaces each nested attachment with a DBRef to its synced
document; resolves the superordinate by numeric_id within the submissions
collection, replacing it with a DBRef when its document exists and leaving
the literal embedded data otherwise; then inserts or partially updates the
document via submissionUpsert. -/
def save_submission (st : DBState) (ags : String) (sub : Submission) :
    Option (DBState × Nat) :=
  let stored := findByAgsField st.submissions ags "numeric_id" (Val.vint sub.numeric_id)
  let base := sub.dictBase ++ [("ags", Val.vstr ags)]
  let step1 : Option (DBState × Fields) :=
    match sub.attachments with
    | none => some (st, base)
    | some atts =>
        match saveAttachmentList st ags atts with
        | none => none
        | some (st', oids) =>
            some (st', base ++ [("attachments", Val.vrefs "attachments" oids)])
  match step1 with
  | none => none
  | some (st1, fresh1) =>
      let fresh2 :=
        match sub.superordinate with
        | none => fresh1
        | some (nid, other) =>
            match findByAgsField st1.submissions ags "numeric_id" (Val.vint nid) with
            | none => fresh1 ++ [("superordinate", Val.vsub nid other)]
            | some supd => fresh1 ++ [("superordinate", Val.vref "submissions" supd.oid)]
      submissionUpsert st1 stored fresh2

/-- Job status strings used by src/risscraper/queue.py. -/
inductive Status where
  | OPEN
  | IN_PROGRESS
  | DONE
  | FAILED
  deriving DecidableEq, Repr

/-- One document of the `queue` collection: ObjectId, realm (`rs`), queue
name, key, status, failure counter, optional payload, last_modified. -/
structure Job where
  oid : Nat
  rs : String
  qname : String
  key : Int
  status : Status
  failures : Int
  payload : Option Val
  last_modified : Nat
  deriving DecidableEq, Repr

/-- The queue collection in natural order, plus a fresh-ObjectId counter. -/
structure QState where
  jobs : List Job
  nextId : Nat
  deriving DecidableEq, Repr

/-- The query `{'rs': RS, 'qname': name, 'key': key}`. -/
def jobMatchKey (rs qn : String) (key : Int) (j : Job) : Bool :=
  j.rs == rs && j.qname == qn && j.key == key

/-- The query `{'rs': RS, 'qname': name, 'status': 'OPEN'}`. -/
def jobOpen (rs qn : String) (j : Job) : Bool :=
  j.rs == rs && j.qname == qn && j.status == Status.OPEN

/-- `collection.find_and_modify(query, update)`: locate the first matching
document, replace it in place by its updated version, and return the
document as it was before the update (pymongo's default `new=False`). -/
def findAndModify : List Job → (Job → Bool) → (Job → Job) → Option Job × List Job
  | [], _, _ => (none, [])
  | j :: rest, p, f =>
      if p j then (some j, f j :: rest)
      else
        let r := findAndModify rest p f
        (r.1, j :: r.2)

namespace Queue

/-- Queue.add (src/risscraper/queue.py lines 49-78): build an OPEN job with
failures = 0 and save it; a DuplicateKeyError from the unique
(rs, qname, key) index is swallowed, leaving the queue unchanged. -/
def add (st : QState) (rs qn : String) (now : Nat) (key : Int)
    (payload : Option Val) : QState :=
  if st.jobs.any (jobMatchKey rs qn key) then st
  else { jobs := st.jobs ++ [⟨st.nextId, rs, qn, key, Status.OPEN, 0, payload, now⟩],
         nextId := st.nextId + 1 }

/-- Queue.get (lines 80-101): find_and_modify the first OPEN job of this
realm and queue to IN_PROGRESS, stamping last_modified, and return its key
and payload.  When no OPEN job matches, find_and_modify yields no document
and the subsequent subscripting raises — modelled as none, with no state
change. -/
def get (st : QState) (rs qn : String) (now : Nat) :
    Option (QState × Int × Option Val) :=
  match findAndModify st.jobs (jobOpen rs qn)
      (fun j => { j with status := Status.IN_PROGRESS, last_modified := now }) with
  | (none, _) => none
  | (some j, jobs') => some ({ st with jobs := jobs' }, j.key, j.payload)

/-- Queue.__len__ (lines 103-113): the number of OPEN jobs of this realm
and queue. -/
def size (st : QState) (rs qn : String) : Nat :=
  (st.jobs.filter (jobOpen rs qn)).length

/-- Queue.has_next (lines 43-47): whether any OPEN job remains. -/
def has_next (st : QState) (rs qn : String) : Bool :=
  decide (0 < size st rs qn)

/-- Queue.resolve_job (lines 115-137): find_and_modify the first job with
this key — whatever its status — to DONE, stamping last_modified.  A
missing key modifies nothing and raises no error. -/
def resolve_job (st : QState) (rs qn : String) (now : Nat) (key : Int) : QState :=
  let r := findAndModify st.jobs (jobMatchKey rs qn key)
      (fun j => { j with status := Status.DONE, last_modified := now })
  { st with jobs := r.2 }

/-- `update({'_id': oid}, ...)`: update the first job with this ObjectId. -/
def updateFirstJob : List Job → Nat → (Job → Job) → List Job
  | [], _, _ => []
  | j :: rest, oid, f =>
      if j.oid == oid then f j :: rest else j :: updateFirstJob rest oid f

/-- Queue.mark_failed (lines 139-167): find_one the job with this key; a
missing job makes `job['failures']` raise on None — modelled as none.
Otherwise `$inc` its failure counter by one and, when the counter read
before the increment is already at least 2, `$set` its status to FAILED in
the same update (last_modified is not touched). -/
def mark_failed (st : QState) (rs qn : String) (key : Int) : Option QState :=
  match st.jobs.find? (jobMatchKey rs qn key) with
  | none => none
  | some j =>
      let f : Job → Job := fun x =>
        if j.failures ≥ 2 then { x with failures := x.failures + 1, status := Status.FAILED }
        else { x with failures := x.failures + 1 }
      some { st with jobs := updateFirstJob st.jobs j.oid f }

/-- Queue.garbage_collect (lines 169-178): remove every DONE job of this
realm and queue. -/
def garbage_collect (st : QState) (rs qn : String) : QState :=
  { st with jobs :=
      st.jobs.filter (fun j => !(j.rs == rs && j.qname == qn && j.status == Status.DONE)) }

end Queue

/-- One queue operation, for stating temporal properties over traces. -/
inductive QOp where
  | add (now : Nat) (key : Int) (payload : Option Val)
  | get (now : Nat)
  | resolve (now : Nat) (key : Int)
  | markFailed (key : Int)
  | gc
  deriving DecidableEq, Repr

/-- Run one queue operation against the state; a failing get or
mark_failed raises out of the call and leaves the stored state unchanged. -/
def QState.applyOp (st : QState) (rs qn : String) : QOp → QState
  | QOp.add now key p => Queue.add st rs qn now key p
  | QOp.get now =>
      match Queue.get st rs qn now with
      | none => st
      | some (st', _, _) => st'
  | QOp.resolve now key => Queue.resolve_job st rs qn now key
  | QOp.markFailed key => (Queue.mark_failed st rs qn key).getD st
  | QOp.gc => Queue.garbage_collect st rs qn

/-- Run a sequence of queue operations left to right. -/
def QState.applyOps (st : QState) (rs qn : String) : List QOp → QState
  | [] => st
  | op :: ops => QState.applyOps (st.applyOp rs qn op) rs qn ops

/-- The state of a freshly created, empty queue collection. -/
def QState.init : QState := ⟨[], 0⟩

/-- Store invariant maintained by every reachable queue state: ObjectIds
are pairwise distinct and below the fresh-id counter. -/
def QState.wf (st : QState) : Prop :=
  (st.jobs.map (fun j => j.oid)).Nodup ∧ ∀ j ∈ st.jobs, j.oid < st.nextId

instance (st : QState) : Decidable st.wf := by
  unfold QState.wf; infer_instance

/-! ### Association-list lemmas -/

lemma lookupField_append (l1 l2 : Fields) (k : String) :
    lookupField (l1 ++ l2) k = (lookupField l1 k).orElse (fun _ => lookupField l2 k) := by
  induction l1 with
  | nil => simp [lookupField]
  | cons kv rest ih =>
      obtain ⟨k', v⟩ := kv
      by_cases h : k' == k
      · simp [lookupField, h, Option.orElse]
      · simp [lookupField, h, ih]

lemma lookupField_eq_none (f : Fields) (k : String) (h : ∀ kv ∈ f, kv.1 ≠ k) :
    lookupField f k = none := by
  induction f with
  | nil => rfl
  | cons kv rest ih =>
      have hk : kv.1 ≠ k := h kv (by simp)
      simp only [lookupField]
      rw [if_neg (by simpa using hk)]
      exact ih (fun x hx => h x (by simp [hx]))

lemma lookupField_mem {f : Fields} {k : String} {v : Val}
    (h : lookupField f k = some v) : (k, v) ∈ f := by
  induction f with
  | nil => simp [lookupField] at h
  | cons kv rest ih =>
      obtain ⟨k', v'⟩ := kv
      by_cases hk : k' == k
      · simp only [lookupField, if_pos hk] at h
        obtain rfl : v' = v := by injection h
        obtain rfl : k' = k := by simpa using hk
        simp
      · simp only [lookupField, if_neg hk] at h
        exact List.mem_cons_of_mem _ (ih h)

lemma setField_id {f : Fields} {k : String} {v : Val}
    (h : lookupField f k = some v) : setField f k v = f := by
  induction f with
  | nil => simp [lookupField] at h
  | cons kv rest ih =>
      obtain ⟨k', v'⟩ := kv
      by_cases hk : k' == k
      · simp only [lookupField, if_pos hk] at h
        obtain rfl : v' = v := by injection h
        obtain rfl : k' = k := by simpa using hk
        simp [setField]
      · simp only [lookupField, if_neg hk] at h
        simp [setField, hk, ih h]

lemma lookupField_setField (f : Fields) (k : String) (v : Val) (k' : String) :
    lookupField (setField f k v) k' =
      if k == k' then some v else lookupField f k' := by
  induction f with
  | nil =>
      by_cases h : k == k' <;> simp [setField, lookupField, h]
  | cons kv rest ih =>
      obtain ⟨k1, v1⟩ := kv
      by_cases h1 : k1 == k
      · have hk1 : k1 = k := by simpa using h1
        subst hk1
        by_cases h2 : k1 == k' <;> simp [setField, lookupField, h1, h2]
      · by_cases h2 : k1 == k'
        · have hk2 : k1 = k' := by simpa using h2
          subst hk2
          have : ¬(k == k1) := by
            intro hc; exact h1 (by simpa using (by simpa using hc : k = k1).symm)
          simp [setField, lookupField, h1, h2, this]
        · simp [setField, lookupField, h1, h2, ih]

lemma applySet_append (f : Fields) (s t : Fields) :
    applySet f (s ++ t) = applySet (applySet f s) t := by
  simp [applySet, List.foldl_append]

lemma lookupField_applySet_of_no_key (f : Fields) (set : Fields) (k : String)
    (h : ∀ kv ∈ set, kv.1 ≠ k) :
    lookupField (applySet f set) k = lookupField f k := by
  induction set generalizing f with
  | nil => rfl
  | cons kv rest ih =>
      have hk : kv.1 ≠ k := h kv (by simp)
      have : applySet f (kv :: rest) = applySet (setField f kv.1 kv.2) rest := rfl
      rw [this, ih _ (fun x hx => h x (by simp [hx])), lookupField_setField]
      rw [if_neg (by simpa using hk)]

lemma lookupField_applySet_unique (f : Fields) (s1 s2 : Fields) (k : String) (v : Val)
    (h2 : ∀ kv ∈ s2, kv.1 ≠ k) :
    lookupField (applySet f (s1 ++ (k, v) :: s2)) k = some v := by
  have : s1 ++ (k, v) :: s2 = (s1 ++ [(k, v)]) ++ s2 := by simp
  rw [this, applySet_append, lookupField_applySet_of_no_key _ _ _ h2,
    applySet_append]
  have : applySet (applySet f s1) [(k, v)] = setField (applySet f s1) k v := rfl
  rw [this, lookupField_setField, if_pos (by simp)]

/-! ### diffFields lemmas -/

lemma diffFields_sublist (fresh sf : Fields) : (diffFields fresh sf).Sublist fresh := by
  induction fresh with
  | nil => simp [diffFields]
  | cons kv rest ih =>
      obtain ⟨k, v⟩ := kv
      by_cases hlm : k == "last_modified"
      · simp only [diffFields, if_pos hlm]
        exact ih.cons _
      · simp only [diffFields, if_neg hlm]
        cases h : lookupField sf k with
        | none => exact ih.cons₂ _
        | some v' =>
            by_cases hv : v' != v
            · simp only [if_pos hv]; exact ih.cons₂ _
            · simp only [if_neg hv]; exact ih.cons _

lemma diffFields_eq_nil (fresh sf : Fields)
    (h : ∀ kv ∈ fresh, lookupField sf kv.1 = some kv.2) :
    diffFields fresh sf = [] := by
  induction fresh with
  | nil => rfl
  | cons kv rest ih =>
      obtain ⟨k, v⟩ := kv
      have hk : lookupField sf k = some v := h (k, v) (by simp)
      by_cases hlm : k == "last_modified"
      · simp only [diffFields, if_pos hlm]
        exact ih (fun x hx => h x (by simp [hx]))
      · simp only [diffFields, if_neg hlm, hk]
        rw [if_neg (by simp)]
        exact ih (fun x hx => h x (by simp [hx]))

lemma diffFields_mem_of {fresh sf : Fields} {k : String} {v : Val}
    (hmem : (k, v) ∈ fresh) (hlm : k ≠ "last_modified")
    (hne : lookupField sf k ≠ some v) : (k, v) ∈ diffFields fresh sf := by
  induction fresh with
  | nil => simp at hmem
  | cons kv rest ih =>
      rcases List.mem_cons.mp hmem with heq | hrest
      · subst heq
        simp only [diffFields]
        rw [if_neg (by simpa using hlm)]
        cases h : lookupField sf k with
        | none => simp
        | some v' =>
            have hv : v' ≠ v := by intro hc; exact hne (by rw [h, hc])
            simp [hv]
      · obtain ⟨k1, v1⟩ := kv
        by_cases hlm1 : k1 == "last_modified"
        · simp only [diffFields, if_pos hlm1]
          exact ih hrest
        · simp only [diffFields, if_neg hlm1]
          cases h : lookupField sf k1 with
          | none => exact List.mem_cons_of_mem _ (ih hrest)
          | some v' =>
              by_cases hv : v' != v1
              · simp only [if_pos hv]
                exact List.mem_cons_of_mem _ (ih hrest)
              · simp only [if_neg hv]
                exact ih hrest

lemma diffFields_not_mem_lookup {fresh sf : Fields} {k : String} {v : Val}
    (hmem : (k, v) ∈ fresh) (hlm : k ≠ "last_modified")
    (hnotin : (k, v) ∉ diffFields fresh sf) : lookupField sf k = some v := by
  by_contra hne
  exact hnotin (diffFields_mem_of hmem hlm hne)

/-! ### Queue list-operation lemmas -/

lemma findAndModify_spec (p : Job → Bool) (f : Job → Job) (l : List Job) :
    (findAndModify l p f = (none, l) ∧ ∀ x ∈ l, p x = false) ∨
    (∃ j l1 l2, l = l1 ++ j :: l2 ∧ p j = true ∧ (∀ y ∈ l1, p y = false) ∧
      findAndModify l p f = (some j, l1 ++ f j :: l2)) := by
  induction l with
  | nil => left; exact ⟨rfl, by simp⟩
  | cons j rest ih =>
      by_cases hp : p j
      · right
        exact ⟨j, [], rest, by simp, hp, by simp, by simp [findAndModify, hp]⟩
      · rcases ih with ⟨hfam, hall⟩ | ⟨x, l1, l2, hsplit, hpx, hl1, hfam⟩
        · left
          constructor
          · simp [findAndModify, hp, hfam]
          · intro y hy
            rcases List.mem_cons.mp hy with rfl | hy'
            · simpa using hp
            · exact hall y hy'
        · right
          refine ⟨x, j :: l1, l2, by simp [hsplit], hpx, ?_, ?_⟩
          · intro y hy
            rcases List.mem_cons.mp hy with rfl | hy'
            · simpa using hp
            · exact hl1 y hy'
          · simp [findAndModify, hp, hfam]

lemma findAndModify_none (p : Job → Bool) (f : Job → Job) (l : List Job)
    (h : ∀ x ∈ l, p x = false) : findAndModify l p f = (none, l) := by
  rcases findAndModify_spec p f l with ⟨hfam, _⟩ | ⟨x, l1, l2, hsplit, hpx, _, _⟩
  · exact hfam
  · exfalso
    have := h x (by rw [hsplit]; simp)
    rw [hpx] at this; cases this

lemma find?_split {p : Job → Bool} {l : List Job} {j : Job}
    (h : l.find? p = some j) :
    ∃ l1 l2, l = l1 ++ j :: l2 ∧ ∀ x ∈ l1, p x = false := by
  induction l with
  | nil => simp at h
  | cons x rest ih =>
      by_cases hp : p x
      · rw [List.find?_cons_of_pos _ hp] at h
        obtain rfl : x = j := by injection h
        exact ⟨[], rest, by simp, by simp⟩
      · rw [List.find?_cons_of_neg _ (by simpa using hp)] at h
        obtain ⟨l1, l2, hsplit, hall⟩ := ih h
        refine ⟨x :: l1, l2, by simp [hsplit], ?_⟩
        intro y hy
        rcases List.mem_cons.mp hy with rfl | hy'
        · simpa using hp
        · exact hall y hy'

lemma updateFirstJob_split (l1 l2 : List Job) (x : Job) (f : Job → Job)
    (h : ∀ y ∈ l1, y.oid ≠ x.oid) :
    Queue.updateFirstJob (l1 ++ x :: l2) x.oid f = l1 ++ f x :: l2 := by
  induction l1 with
  | nil => simp [Queue.updateFirstJob]
  | cons y rest ih =>
      have hy : y.oid ≠ x.oid := h y (by simp)
      simp only [List.cons_append, Queue.updateFirstJob, List.append_eq]
      rw [if_neg (by simpa using hy)]
      rw [ih (fun z hz => h z (by simp [hz]))]

lemma updateFirstJob_map_oid (l : List Job) (oid : Nat) (f : Job → Job)
    (h : ∀ x, (f x).oid = x.oid) :
    (Queue.updateFirstJob l oid f).map (fun j => j.oid) = l.map (fun j => j.oid) := by
  induction l with
  | nil => rfl
  | cons j rest ih =>
      by_cases hj : j.oid == oid
      · simp [Queue.updateFirstJob, hj, h]
      · simp [Queue.updateFirstJob, hj, ih]

lemma updateFirstJob_mem {l : List Job} {oid : Nat} {f : Job → Job} {j' : Job}
    (h : j' ∈ Queue.updateFirstJob l oid f) :
    j' ∈ l ∨ ∃ x ∈ l, x.oid = oid ∧ j' = f x := by
  induction l with
  | nil => simp [Queue.updateFirstJob] at h
  | cons x rest ih =>
      by_cases hx : x.oid == oid
      · simp only [Queue.updateFirstJob, if_pos hx] at h
        rcases List.mem_cons.mp h with rfl | hy
        · right; exact ⟨x, by simp, by simpa using hx, rfl⟩
        · left; simp [hy]
      · simp only [Queue.updateFirstJob, if_neg hx] at h
        rcases List.mem_cons.mp h with rfl | hy
        · left; simp
        · rcases ih hy with h1 | ⟨z, hz, hoid, rfl⟩
          · left; simp [h1]
          · right; exact ⟨z, by simp [hz], hoid, rfl⟩

lemma oid_inj {st : QState} (hwf : st.wf) {a b : Job}
    (ha : a ∈ st.jobs) (hb : b ∈ st.jobs) (h : a.oid = b.oid) : a = b :=
  List.inj_on_of_nodup_map hwf.1 ha hb h

/-! ### Claim C9: garbage_collect deletes exactly the DONE jobs
of this realm and queue -/

/-- C9: garbage_collect deletes exactly the DONE jobs of the ambient realm
and queue name; every OPEN, IN_PROGRESS and FAILED job, and every job of
another realm or queue, survives unchanged (the survivors are exactly the
original jobs, in order, that are not rs/qname-matching DONE jobs). -/
theorem C9_gc_deletes_exactly_done (st : QState) (rs qn : String) :
    (∀ j : Job, j ∈ (Queue.garbage_collect st rs qn).jobs ↔
      (j ∈ st.jobs ∧ ¬(j.rs = rs ∧ j.qname = qn ∧ j.status = Status.DONE))) ∧
    (Queue.garbage_collect st rs qn).jobs.Sublist st.jobs ∧
    (Queue.garbage_collect st rs qn).nextId = st.nextId := by
  refine ⟨?_, ?_, rfl⟩
  · intro j
    simp only [Queue.garbage_collect, List.mem_filter]
    constructor
    · rintro ⟨hj, hb⟩
      refine ⟨hj, ?_⟩
      rintro ⟨h1, h2, h3⟩
      simp [h1, h2, h3] at hb
    · rintro ⟨hj, hb⟩
      refine ⟨hj, ?_⟩
      by_cases h1 : j.rs = rs
      · by_cases h2 : j.qname = qn
        · by_cases h3 : j.status = Status.DONE
          · exact absurd ⟨h1, h2, h3⟩ hb
          · simp [h1, h2, h3]
        · simp [h2]
      · simp [h1]
  · exact List.filter_sublist _

/-! ### Claim C7: get on an empty (no OPEN jobs) queue fails without
modifying the state -/

/-- C7: when no OPEN job exists for the ambient realm and queue name,
Queue.get fails (raises, modelled as none) and the stored queue state is
left unchanged by the failed call. -/
theorem C7_get_empty_fails (st : QState) (rs qn : String) (now : Nat)
    (h : Queue.size st rs qn = 0) :
    Queue.get st rs qn now = none ∧ st.applyOp rs qn (QOp.get now) = st := by
  have hall : ∀ x ∈ st.jobs, jobOpen rs qn x = false := by
    intro x hx
    have := (List.filter_eq_nil).mp ((List.length_eq_zero).mp h) x hx
    simpa using this
  have hfam := findAndModify_none (jobOpen rs qn)
    (fun j => { j with status := Status.IN_PROGRESS, last_modified := now }) st.jobs hall
  constructor
  · simp [Queue.get, hfam]
  · simp [QState.applyOp, Queue.get, hfam]

/-- C7 witness: the empty queue state has no OPEN job, and get fails on it
leaving it unchanged. -/
theorem C7_witness :
    Queue.size QState.init "r" "q" = 0 ∧
    (Queue.get QState.init "r" "q" 5 = none ∧
      QState.init.applyOp "r" "q" (QOp.get 5) = QState.init) :=
  ⟨by decide, C7_get_empty_fails QState.init "r" "q" 5 (by decide)⟩

/-! ### Claim C10: mark_failed on a missing key raises, resolve_job on a
missing key is a silent no-op -/

/-- C10: for a key with no matching job in the ambient realm and queue
name, mark_failed dereferences the missing document and fails (modelled as
none), while resolve_job on the same missing key returns without error and
leaves the queue unchanged. -/
theorem C10_missing_key (st : QState) (rs qn : String) (key : Int) (now : Nat)
    (h : st.jobs.find? (jobMatchKey rs qn key) = none) :
    Queue.mark_failed st rs qn key = none ∧
    Queue.resolve_job st rs qn now key = st := by
  constructor
  · simp [Queue.mark_failed, h]
  · have hall : ∀ x ∈ st.jobs, jobMatchKey rs qn key x = false := by
      intro x hx
      have := List.find?_eq_none.mp h x hx
      simpa using this
    have hfam := findAndModify_none (jobMatchKey rs qn key)
      (fun j => { j with status := Status.DONE, last_modified := now }) st.jobs hall
    simp [Queue.resolve_job, hfam]

/-- C10 witness: on a queue holding only an unrelated key, mark_failed of
key 2 fails and resolve_job of key 2 changes nothing. -/
theorem C10_witness :
    (QState.jobs ⟨[⟨0, "r", "q", 1, Status.OPEN, 0, none, 0⟩], 1⟩).find?
        (jobMatchKey "r" "q" 2) = none ∧
    (Queue.mark_failed ⟨[⟨0, "r", "q", 1, Status.OPEN, 0, none, 0⟩], 1⟩ "r" "q" 2 = none ∧
      Queue.resolve_job ⟨[⟨0, "r", "q", 1, Status.OPEN, 0, none, 0⟩], 1⟩ "r" "q" 7 2 =
        ⟨[⟨0, "r", "q", 1, Status.OPEN, 0, none, 0⟩], 1⟩) :=
  ⟨by decide, C10_missing_key ⟨[⟨0, "r", "q", 1, Status.OPEN, 0, none, 0⟩], 1⟩
    "r" "q" 2 7 (by decide)⟩

/-! ### Claim C5: add is an idempotent enqueue -/

/-- C5: Queue.add is an idempotent enqueue: adding a key that is already
present in any state leaves the queue unchanged and raises no error, adding
a fresh key appends exactly one OPEN job with failures = 0, and a second
add of the same key is absorbed by the first. -/
theorem C5_add_idempotent (st : QState) (rs qn : String) (now now2 : Nat)
    (key : Int) (p p2 : Option Val) :
    (Queue.add (Queue.add st rs qn now key p) rs qn now2 key p2 =
      Queue.add st rs qn now key p) ∧
    (st.jobs.any (jobMatchKey rs qn key) = true → Queue.add st rs qn now key p = st) ∧
    (st.jobs.any (jobMatchKey rs qn key) = false →
      Queue.add st rs qn now key p =
        ⟨st.jobs ++ [(⟨st.nextId, rs, qn, key, Status.OPEN, 0, p, now⟩ : Job)],
          st.nextId + 1⟩) := by
  refine ⟨?_, ?_, ?_⟩
  · by_cases h : st.jobs.any (jobMatchKey rs qn key)
    · simp [Queue.add, h]
    · have h1 : Queue.add st rs qn now key p =
          ⟨st.jobs ++ [(⟨st.nextId, rs, qn, key, Status.OPEN, 0, p, now⟩ : Job)],
            st.nextId + 1⟩ := by
        simp [Queue.add, h]
      rw [h1]
      have h2 : (st.jobs ++ [(⟨st.nextId, rs, qn, key, Status.OPEN, 0, p, now⟩ : Job)]).any
          (jobMatchKey rs qn key) = true := by
        rw [List.any_append]
        simp [jobMatchKey]
      simp [Queue.add, h2]
  · intro h; simp [Queue.add, h]
  · intro h; simp [Queue.add, h]

/-- C5 witness: enqueuing key 1 twice into the empty queue leaves a single
OPEN job with failures 0 (the second add is a no-op on the first's result). -/
theorem C5_witness :
    Queue.add (Queue.add QState.init "r" "q" 0 1 none) "r" "q" 3 1 none =
      Queue.add QState.init "r" "q" 0 1 none :=
  (C5_add_idempotent QState.init "r" "q" 0 3 1 none none).1

/-! ### Claim C6: get claims exactly one OPEN job -/

/-- C6: whenever at least one OPEN job exists for the ambient realm and
queue name, Queue.get moves exactly one OPEN job of that realm and queue to
IN_PROGRESS (all other jobs untouched), returns its key and payload, and
the OPEN count reported by size/has_next drops by exactly one. -/
theorem C6_get_claims_one (st : QState) (rs qn : String) (now : Nat)
    (h : 0 < Queue.size st rs qn) :
    ∃ j l1 l2, st.jobs = l1 ++ j :: l2 ∧ j.rs = rs ∧ j.qname = qn ∧
      j.status = Status.OPEN ∧
      Queue.get st rs qn now =
        some (⟨l1 ++ ({ j with status := Status.IN_PROGRESS, last_modified := now } : Job) :: l2,
               st.nextId⟩, j.key, j.payload) ∧
      Queue.size ⟨l1 ++ ({ j with status := Status.IN_PROGRESS, last_modified := now } : Job) :: l2,
          st.nextId⟩ rs qn = Queue.size st rs qn - 1 := by
  rcases findAndModify_spec (jobOpen rs qn)
      (fun j => { j with status := Status.IN_PROGRESS, last_modified := now }) st.jobs with
    ⟨_, hall⟩ | ⟨j, l1, l2, hsplit, hpj, _, hfam⟩
  · exfalso
    have : (st.jobs.filter (jobOpen rs qn)) = [] :=
      List.filter_eq_nil.mpr (fun x hx => by rw [hall x hx]; simp)
    unfold Queue.size at h
    rw [this] at h
    simp at h
  · obtain ⟨⟨hrs, hqn⟩, hst⟩ : (j.rs = rs ∧ j.qname = qn) ∧ j.status = Status.OPEN := by
      simpa [jobOpen] using hpj
    refine ⟨j, l1, l2, hsplit, hrs, hqn, hst, ?_, ?_⟩
    · simp [Queue.get, hfam]
    · have hupd : jobOpen rs qn
          ({ j with status := Status.IN_PROGRESS, last_modified := now } : Job) = false := by
        simp [jobOpen]
      unfold Queue.size
      rw [hsplit]
      simp only [List.filter_append, List.filter_cons, hupd, hpj, List.length_append]
      simp

/-- C6 witness: on a queue holding one OPEN job, get claims it and the OPEN
count drops from 1 to 0. -/
theorem C6_witness :
    0 < Queue.size ⟨[⟨0, "r", "q", 4, Status.OPEN, 0, none, 0⟩], 1⟩ "r" "q" ∧
    (∃ j l1 l2,
      (QState.jobs ⟨[⟨0, "r", "q", 4, Status.OPEN, 0, none, 0⟩], 1⟩) = l1 ++ j :: l2 ∧
      j.rs = "r" ∧ j.qname = "q" ∧ j.status = Status.OPEN ∧
      Queue.get ⟨[⟨0, "r", "q", 4, Status.OPEN, 0, none, 0⟩], 1⟩ "r" "q" 9 =
        some (⟨l1 ++ ({ j with status := Status.IN_PROGRESS, last_modified := 9 } : Job) :: l2,
               1⟩, j.key, j.payload) ∧
      Queue.size ⟨l1 ++ ({ j with status := Status.IN_PROGRESS, last_modified := 9 } : Job) :: l2,
          1⟩ "r" "q" =
        Queue.size ⟨[⟨0, "r", "q", 4, Status.OPEN, 0, none, 0⟩], 1⟩ "r" "q" - 1) :=
  ⟨by decide, C6_get_claims_one ⟨[⟨0, "r", "q", 4, Status.OPEN, 0, none, 0⟩], 1⟩
    "r" "q" 9 (by decide)⟩

/-! ### Claim C4: mark_failed increments the counter and fails at 3 -/

lemma nodup_split_left {l1 l2 : List Job} {j : Job}
    (h : ((l1 ++ j :: l2).map (fun x => x.oid)).Nodup) :
    ∀ y ∈ l1, y.oid ≠ j.oid := by
  intro y hy hc
  rw [List.map_append, List.map_cons] at h
  have hdisj := (List.nodup_append.mp h).2.2
  exact hdisj (List.mem_map_of_mem _ hy) (by simp [hc])

/-- C4: on the job found for the given key, mark_failed issues exactly one
update, incrementing the failure counter by one; the update that brings the
total to 3 (or beyond) sets the status to FAILED in the same update, and
any earlier update leaves the previous status in place.  All other jobs are
untouched. -/
theorem C4_mark_failed_escalates (st : QState) (rs qn : String) (key : Int) (j : Job)
    (hwf : st.wf) (hfind : st.jobs.find? (jobMatchKey rs qn key) = some j) :
    ∃ l1 l2, st.jobs = l1 ++ j :: l2 ∧
      Queue.mark_failed st rs qn key =
        some ⟨l1 ++ ({ j with
            failures := j.failures + 1,
            status := if j.failures + 1 ≥ 3 then Status.FAILED else j.status } : Job) :: l2,
          st.nextId⟩ := by
  obtain ⟨l1, l2, hsplit, _⟩ := find?_split hfind
  refine ⟨l1, l2, hsplit, ?_⟩
  have hne : ∀ y ∈ l1, y.oid ≠ j.oid := nodup_split_left (hsplit ▸ hwf.1)
  have hupd := updateFirstJob_split l1 l2 j
    (fun x => if j.failures ≥ 2 then { x with failures := x.failures + 1, status := Status.FAILED }
      else { x with failures := x.failures + 1 }) hne
  simp only [Queue.mark_failed, hfind]
  rw [hsplit, hupd]
  by_cases hge : j.failures ≥ 2
  · have h3 : j.failures + 1 ≥ 3 := by omega
    simp [hge, h3]
  · have h3 : ¬j.failures + 1 ≥ 3 := by omega
    simp [hge, h3]

/-- C4 witness: a job carrying failures = 2 is moved to FAILED with
failures = 3 by the very update that brings the total to 3. -/
theorem C4_witness :
    (QState.wf ⟨[⟨0, "r", "q", 1, Status.IN_PROGRESS, 2, none, 0⟩], 1⟩ ∧
      (QState.jobs ⟨[⟨0, "r", "q", 1, Status.IN_PROGRESS, 2, none, 0⟩], 1⟩).find?
        (jobMatchKey "r" "q" 1) = some ⟨0, "r", "q", 1, Status.IN_PROGRESS, 2, none, 0⟩) ∧
    Queue.mark_failed ⟨[⟨0, "r", "q", 1, Status.IN_PROGRESS, 2, none, 0⟩], 1⟩ "r" "q" 1 =
      some ⟨[⟨0, "r", "q", 1, Status.FAILED, 3, none, 0⟩], 1⟩ := by
  refine ⟨⟨by decide, by decide⟩, ?_⟩
  obtain ⟨l1, l2, hsplit, hmf⟩ := C4_mark_failed_escalates
    ⟨[⟨0, "r", "q", 1, Status.IN_PROGRESS, 2, none, 0⟩], 1⟩ "r" "q" 1
    ⟨0, "r", "q", 1, Status.IN_PROGRESS, 2, none, 0⟩ (by decide) (by decide)
  rcases l1 with _ | ⟨a, l1'⟩
  · simp only [List.nil_append] at hmf
    obtain rfl : l2 = [] := by
      have := congrArg List.length hsplit
      simpa using this
    rw [hmf]
    decide
  · exfalso
    have := congrArg List.length hsplit
    simp [List.length_append] at this

/-! ### Well-formedness of reachable queue states -/

lemma wf_init : QState.init.wf := by
  constructor <;> simp [QState.init]

lemma wf_add (st : QState) (rs qn : String) (now : Nat) (key : Int) (p : Option Val)
    (hwf : st.wf) : (Queue.add st rs qn now key p).wf := by
  unfold Queue.add
  by_cases h : st.jobs.any (jobMatchKey rs qn key)
  · rw [if_pos h]; exact hwf
  · rw [if_neg h]
    constructor
    · rw [List.map_append, List.nodup_append]
      refine ⟨hwf.1, by simp, ?_⟩
      intro a ha hb
      simp only [List.map_cons, List.map_nil, List.mem_singleton] at hb
      subst hb
      obtain ⟨x, hx, hax⟩ := List.mem_map.mp ha
      have := hwf.2 x hx
      omega
    · intro x hx
      rcases List.mem_append.mp hx with h1 | h2
      · exact Nat.lt_succ_of_lt (hwf.2 x h1)
      · simp only [List.mem_singleton] at h2
        subst h2
        simp

lemma wf_findAndModify (st : QState) (p : Job → Bool) (f : Job → Job)
    (hf : ∀ x, (f x).oid = x.oid) (hwf : st.wf) :
    (QState.mk (findAndModify st.jobs p f).2 st.nextId).wf := by
  rcases findAndModify_spec p f st.jobs with ⟨hfam, _⟩ | ⟨j, l1, l2, hsplit, _, _, hfam⟩
  · rw [hfam]; exact hwf
  · rw [hfam]
    constructor
    · have hmap : (l1 ++ f j :: l2).map (fun x => x.oid) =
          (l1 ++ j :: l2).map (fun x => x.oid) := by
        simp [hf]
      simp only [hmap, ← hsplit]
      exact hwf.1
    · intro x hx
      rcases List.mem_append.mp hx with h1 | h2
      · exact hwf.2 x (by rw [hsplit]; exact List.mem_append_left _ h1)
      · rcases List.mem_cons.mp h2 with rfl | h3
        · rw [hf]; exact hwf.2 j (by rw [hsplit]; simp)
        · exact hwf.2 x (by rw [hsplit]; simp [h3])

lemma wf_updateFirstJob (st : QState) (oid : Nat) (f : Job → Job)
    (hf : ∀ x, (f x).oid = x.oid) (hwf : st.wf) :
    (QState.mk (Queue.updateFirstJob st.jobs oid f) st.nextId).wf := by
  constructor
  · rw [updateFirstJob_map_oid st.jobs oid f hf]
    exact hwf.1
  · intro x hx
    rcases updateFirstJob_mem hx with h1 | ⟨z, hz, _, rfl⟩
    · exact hwf.2 x h1
    · rw [hf]; exact hwf.2 z hz

lemma wf_applyOp (st : QState) (rs qn : String) (op : QOp) (hwf : st.wf) :
    (st.applyOp rs qn op).wf := by
  cases op with
  | add now key p => exact wf_add st rs qn now key p hwf
  | get now =>
      have hff := wf_findAndModify st (jobOpen rs qn)
        (fun j => { j with status := Status.IN_PROGRESS, last_modified := now })
        (fun _ => rfl) hwf
      simp only [QState.applyOp, Queue.get]
      cases hfam : findAndModify st.jobs (jobOpen rs qn)
          (fun j => { j with status := Status.IN_PROGRESS, last_modified := now }) with
      | mk o jobs' =>
          rw [hfam] at hff
          cases o with
          | none => exact hwf
          | some j => exact hff
  | resolve now key =>
      have hff := wf_findAndModify st (jobMatchKey rs qn key)
        (fun j => { j with status := Status.DONE, last_modified := now })
        (fun _ => rfl) hwf
      exact hff
  | markFailed key =>
      simp only [QState.applyOp, Queue.mark_failed]
      cases hfind : st.jobs.find? (jobMatchKey rs qn key) with
      | none => exact hwf
      | some j =>
          exact wf_updateFirstJob st j.oid _
            (by intro x; by_cases hc : j.failures ≥ 2 <;> simp [hc]) hwf
  | gc =>
      constructor
      · exact List.Nodup.sublist ((List.filter_sublist st.jobs).map _) hwf.1
      · intro x hx
        exact hwf.2 x (List.mem_of_mem_filter hx)

lemma wf_applyOps (rs qn : String) (ops : List QOp) (st : QState) (hwf : st.wf) :
    (QState.applyOps st rs qn ops).wf := by
  induction ops generalizing st with
  | nil => exact hwf
  | cons op rest ih => exact ih _ (wf_applyOp st rs qn op hwf)

/-! ### Claim C3: DONE/FAILED stickiness -/

lemma done_failed_sticky (st : QState) (rs qn : String) (op : QOp) (j : Job)
    (hwf : st.wf) (hj : j ∈ st.jobs)
    (hs : j.status = Status.DONE ∨ j.status = Status.FAILED) :
    (∀ j' ∈ (st.applyOp rs qn op).jobs, j'.oid = j.oid →
      (j'.status = Status.DONE ∨ j'.status = Status.FAILED)) ∧
    ((∀ j' ∈ (st.applyOp rs qn op).jobs, j'.oid ≠ j.oid) →
      op = QOp.gc ∧ j.status = Status.DONE) := by
  cases op with
  | add now key p =>
      constructor
      · intro j' hj' hoid
        simp only [QState.applyOp, Queue.add] at hj'
        by_cases h : st.jobs.any (jobMatchKey rs qn key)
        · rw [if_pos h] at hj'
          rw [oid_inj hwf hj' hj hoid]
          exact hs
        · rw [if_neg h] at hj'
          rcases List.mem_append.mp hj' with h1 | h2
          · rw [oid_inj hwf h1 hj hoid]
            exact hs
          · exfalso
            simp only [List.mem_singleton] at h2
            subst h2
            have := hwf.2 j hj
            simp at hoid
            omega
      · intro hall
        exfalso
        refine hall j ?_ rfl
        simp only [QState.applyOp, Queue.add]
        by_cases h : st.jobs.any (jobMatchKey rs qn key)
        · rw [if_pos h]; exact hj
        · rw [if_neg h]; exact List.mem_append_left _ hj
  | get now =>
      rcases findAndModify_spec (jobOpen rs qn)
          (fun x => { x with status := Status.IN_PROGRESS, last_modified := now }) st.jobs with
        ⟨hfam, _⟩ | ⟨x, l1, l2, hsplit, hpx, _, hfam⟩
      · have hred : st.applyOp rs qn (QOp.get now) = st := by
          simp [QState.applyOp, Queue.get, hfam]
        rw [hred]
        constructor
        · intro j' hj' hoid
          rw [oid_inj hwf hj' hj hoid]; exact hs
        · intro hall; exact absurd rfl (hall j hj)
      · have hxj : x ≠ j := by
          intro hc
          subst hc
          simp only [jobOpen, Bool.and_eq_true, beq_iff_eq] at hpx
          rcases hs with h | h <;> rw [hpx.2] at h <;> cases h
        have hred : st.applyOp rs qn (QOp.get now) =
            ⟨l1 ++ ({ x with status := Status.IN_PROGRESS, last_modified := now } : Job) :: l2,
              st.nextId⟩ := by
          simp [QState.applyOp, Queue.get, hfam]
        rw [hred]
        constructor
        · intro j' hj' hoid
          rcases List.mem_append.mp hj' with h1 | h2
          · rw [oid_inj hwf (by rw [hsplit]; exact List.mem_append_left _ h1) hj hoid]
            exact hs
          · rcases List.mem_cons.mp h2 with rfl | h3
            · exfalso
              apply hxj
              exact oid_inj hwf (by rw [hsplit]; simp) hj hoid
            · rw [oid_inj hwf (by rw [hsplit]; simp [h3]) hj hoid]
              exact hs
        · intro hall
          exfalso
          have hjmem : j ∈ l1 ++ x :: l2 := hsplit ▸ hj
          rcases List.mem_append.mp hjmem with h1 | h2
          · exact hall j (List.mem_append_left _ h1) rfl
          · rcases List.mem_cons.mp h2 with rfl | h3
            · exact hxj rfl
            · exact hall j (by simp [h3]) rfl
  | resolve now key =>
      rcases findAndModify_spec (jobMatchKey rs qn key)
          (fun x => { x with status := Status.DONE, last_modified := now }) st.jobs with
        ⟨hfam, _⟩ | ⟨x, l1, l2, hsplit, _, _, hfam⟩
      · have hred : st.applyOp rs qn (QOp.resolve now key) = st := by
          simp [QState.applyOp, Queue.resolve_job, hfam]
        rw [hred]
        constructor
        · intro j' hj' hoid
          rw [oid_inj hwf hj' hj hoid]; exact hs
        · intro hall; exact absurd rfl (hall j hj)
      · have hred : st.applyOp rs qn (QOp.resolve now key) =
            ⟨l1 ++ ({ x with status := Status.DONE, last_modified := now } : Job) :: l2,
              st.nextId⟩ := by
          simp [QState.applyOp, Queue.resolve_job, hfam]
        rw [hred]
        constructor
        · intro j' hj' hoid
          rcases List.mem_append.mp hj' with h1 | h2
          · rw [oid_inj hwf (by rw [hsplit]; exact List.mem_append_left _ h1) hj hoid]
            exact hs
          · rcases List.mem_cons.mp h2 with rfl | h3
            · left; rfl
            · rw [oid_inj hwf (by rw [hsplit]; simp [h3]) hj hoid]
              exact hs
        · intro hall
          exfalso
          have hjmem : j ∈ l1 ++ x :: l2 := hsplit ▸ hj
          rcases List.mem_append.mp hjmem with h1 | h2
          · exact hall j (List.mem_append_left _ h1) rfl
          · rcases List.mem_cons.mp h2 with rfl | h3
            · exact hall ({ j with status := Status.DONE, last_modified := now }) (by simp) rfl
            · exact hall j (by simp [h3]) rfl
  | markFailed key =>
      simp only [QState.applyOp, Queue.mark_failed]
      cases hfind : st.jobs.find? (jobMatchKey rs qn key) with
      | none =>
          constructor
          · intro j' hj' hoid
            rw [oid_inj hwf hj' hj hoid]; exact hs
          · intro hall; exact absurd rfl (hall j hj)
      | some x =>
          have hfoid : ∀ z : Job, ((fun (y : Job) =>
              if x.failures ≥ 2 then
                { y with failures := y.failures + 1, status := Status.FAILED }
              else { y with failures := y.failures + 1 }) z).oid = z.oid := by
            intro z
            by_cases hc : x.failures ≥ 2 <;> simp [hc]
          constructor
          · intro j' hj' hoid
            simp only [Option.getD_some] at hj'
            rcases updateFirstJob_mem hj' with h1 | ⟨z, hz, _, rfl⟩
            · rw [oid_inj hwf h1 hj hoid]; exact hs
            · rw [hfoid z] at hoid
              have hzj : z = j := oid_inj hwf hz hj hoid
              subst hzj
              by_cases hc : x.failures ≥ 2
              · simp [hc]
              · simpa [hc] using hs
          · intro hall
            exfalso
            have hoidmem : j.oid ∈ (Queue.updateFirstJob st.jobs x.oid (fun (y : Job) =>
                if x.failures ≥ 2 then
                  { y with failures := y.failures + 1, status := Status.FAILED }
                else { y with failures := y.failures + 1 })).map (fun y => y.oid) := by
              rw [updateFirstJob_map_oid _ _ _ hfoid]
              exact List.mem_map_of_mem _ hj
            obtain ⟨j', hj', hoid⟩ := List.mem_map.mp hoidmem
            exact hall j' (by simpa using hj') hoid
  | gc =>
      have hred : (st.applyOp rs qn QOp.gc).jobs =
          st.jobs.filter
            (fun x => !(x.rs == rs && x.qname == qn && x.status == Status.DONE)) := rfl
      constructor
      · intro j' hj' hoid
        rw [hred] at hj'
        rw [oid_inj hwf (List.mem_of_mem_filter hj') hj hoid]
        exact hs
      · intro hall
        refine ⟨rfl, ?_⟩
        rcases hs with h | h
        · exact h
        · exfalso
          refine hall j ?_ rfl
          rw [hred, List.mem_filter]
          exact ⟨hj, by simp [h]⟩

/-- C3 (amended): on every reachable queue state, once a job's status is
DONE or FAILED it is never returned to OPEN or IN_PROGRESS: after any
further operation, every job carrying its ObjectId still has status DONE or
FAILED, and the job can only have disappeared through garbage_collect while
it was DONE.  (resolve_job may still re-mark a FAILED job DONE, and
mark_failed may still increment a DONE/FAILED job's failure counter and
flip a DONE job to FAILED — the statuses stay within the terminal pair.) -/
theorem C3_done_failed_terminal (rs qn : String) (ops : List QOp) (op : QOp) (j : Job)
    (hj : j ∈ (QState.applyOps QState.init rs qn ops).jobs)
    (hs : j.status = Status.DONE ∨ j.status = Status.FAILED) :
    (∀ j' ∈ ((QState.applyOps QState.init rs qn ops).applyOp rs qn op).jobs,
      j'.oid = j.oid → (j'.status = Status.DONE ∨ j'.status = Status.FAILED)) ∧
    ((∀ j' ∈ ((QState.applyOps QState.init rs qn ops).applyOp rs qn op).jobs,
      j'.oid ≠ j.oid) → op = QOp.gc ∧ j.status = Status.DONE) :=
  done_failed_sticky (QState.applyOps QState.init rs qn ops) rs qn op j
    (wf_applyOps rs qn ops QState.init wf_init) hj hs

/-- C3 counterexample: a reachable state holds a FAILED job (enqueued, then
mark_failed three times); resolve_job — an operation other than garbage
collection — then changes that job's state again, re-marking it DONE.  This
refutes the claim that no operation ever changes a DONE/FAILED job except
garbage_collect deleting DONE jobs. -/
theorem C3_counterexample :
    (QState.applyOps QState.init "r" "q"
        [QOp.add 0 1 none, QOp.markFailed 1, QOp.markFailed 1, QOp.markFailed 1]).jobs.map
      (fun j => j.status) = [Status.FAILED] ∧
    (QState.applyOps QState.init "r" "q"
        [QOp.add 0 1 none, QOp.markFailed 1, QOp.markFailed 1, QOp.markFailed 1,
          QOp.resolve 9 1]).jobs.map (fun j => j.status) = [Status.DONE] := by
  decide

/-- C3 witness: a reachable state holding a DONE job, checked against
garbage collection. -/
theorem C3_witness :
    ((⟨0, "r", "q", 1, Status.DONE, 0, none, 1⟩ : Job) ∈
      (QState.applyOps QState.init "r" "q" [QOp.add 0 1 none, QOp.resolve 1 1]).jobs) ∧
    ((∀ j' ∈ ((QState.applyOps QState.init "r" "q"
          [QOp.add 0 1 none, QOp.resolve 1 1]).applyOp "r" "q" QOp.gc).jobs,
        j'.oid = (⟨0, "r", "q", 1, Status.DONE, 0, none, 1⟩ : Job).oid →
          (j'.status = Status.DONE ∨ j'.status = Status.FAILED)) ∧
      ((∀ j' ∈ ((QState.applyOps QState.init "r" "q"
          [QOp.add 0 1 none, QOp.resolve 1 1]).applyOp "r" "q" QOp.gc).jobs,
        j'.oid ≠ (⟨0, "r", "q", 1, Status.DONE, 0, none, 1⟩ : Job).oid) →
          QOp.gc = QOp.gc ∧ (⟨0, "r", "q", 1, Status.DONE, 0, none, 1⟩ : Job).status =
            Status.DONE)) :=
  ⟨by decide, C3_done_failed_terminal "r" "q" [QOp.add 0 1 none, QOp.resolve 1 1] QOp.gc
    ⟨0, "r", "q", 1, Status.DONE, 0, none, 1⟩ (by decide) (Or.inl rfl)⟩

/-! ### Document-store lemmas -/

lemma updateFirstDoc_eq_self {l : List StoredDoc} {oid : Nat} {set : Fields} {d : StoredDoc}
    (hfind : l.find? (fun x => x.oid == oid) = some d)
    (hid : applySet d.fields set = d.fields) :
    updateFirstDoc l oid set = l := by
  induction l with
  | nil => simp at hfind
  | cons e rest ih =>
      by_cases he : (e.oid == oid) = true
      · rw [@List.find?_cons_of_pos StoredDoc (fun x => x.oid == oid) e rest he] at hfind
        obtain rfl : e = d := by injection hfind
        simp [updateFirstDoc, he, hid]
      · rw [@List.find?_cons_of_neg StoredDoc (fun x => x.oid == oid) e rest he] at hfind
        simp only [updateFirstDoc, if_neg he]
        rw [ih hfind]

lemma updateFirstDoc_mem_result {l : List StoredDoc} {d : StoredDoc} {set : Fields}
    (hnodup : (l.map (fun x => x.oid)).Nodup) (hd : d ∈ l) :
    ∃ e ∈ updateFirstDoc l d.oid set, e.oid = d.oid ∧ e.fields = applySet d.fields set := by
  induction l with
  | nil => simp at hd
  | cons x rest ih =>
      rw [List.map_cons, List.nodup_cons] at hnodup
      by_cases hx : (x.oid == d.oid) = true
      · have hxd : x = d := by
          rcases List.mem_cons.mp hd with rfl | hdr
          · rfl
          · exfalso
            have hmemoid : d.oid ∈ rest.map (fun y => y.oid) := List.mem_map_of_mem _ hdr
            have hxo : x.oid = d.oid := by simpa using hx
            rw [← hxo] at hmemoid
            exact hnodup.1 hmemoid
        subst hxd
        refine ⟨{ x with fields := applySet x.fields set }, ?_, rfl, rfl⟩
        simp [updateFirstDoc, hx]
      · rcases List.mem_cons.mp hd with rfl | hdr
        · exact absurd (by simp) hx
        · obtain ⟨e, he, hoid, hfieldse⟩ := ih hnodup.2 hdr
          refine ⟨e, ?_, hoid, hfieldse⟩
          have hstep : updateFirstDoc (x :: rest) d.oid set =
              x :: updateFirstDoc rest d.oid set := by
            simp [updateFirstDoc, hx]
          rw [hstep]
          exact List.mem_cons_of_mem _ he

/-! ### Claim C1: re-syncing an identical attachment -/

/-- C1 counterexample: syncing a fresh Attachment into an empty store costs
one GridFS put and one insert; re-syncing the very same Attachment — all
storable fields and the content identical to what is stored — is not
write-free: the stored `file` reference is carried into the changed-field
set, so a document update re-setting `file` and `last_modified` is issued
(though no blob put and no field value actually changes). -/
theorem C1_counterexample :
    ((save_attachment ⟨[], [], [], 0, []⟩ "city" ⟨"A1", "f1", [1, 2], 7, []⟩).map
      (fun r => r.1.log)) = some [WriteOp.fsPut 0, WriteOp.attInsert 1] ∧
    ((save_attachment ⟨[], [], [], 0, []⟩ "city" ⟨"A1", "f1", [1, 2], 7, []⟩).bind
        (fun r => save_attachment r.1 "city" ⟨"A1", "f1", [1, 2], 7, []⟩)).map
      (fun r => r.1.log) =
      some [WriteOp.fsPut 0, WriteOp.attInsert 1,
        WriteOp.attUpdate 1 [("file", Val.vref "fs.files" 0), ("last_modified", Val.vint 7)]] := by
  decide

/-- C1 (amended): re-syncing an Attachment whose storable fields and
content are identical to the stored document and blob performs no blob put
and no insert, and leaves every collection byte-identical — but it is not
write-free: because the fresh field mapping carries no `file` key, the
stored `file` reference is carried into the changed-field set, which is
therefore non-empty, and exactly one document update (re-setting `file`
and refreshing `last_modified` to the identical value) is issued. -/
theorem C1_resync_issues_update (st : DBState) (ags coll : String) (a : Attachment)
    (d : StoredDoc) (bid : Nat) (b : Blob)
    (hfind : findByAgsField st.attachments ags "identifier" (Val.vstr a.identifier) = some d)
    (hfirst : st.attachments.find? (fun x => x.oid == d.oid) = some d)
    (hfile : lookupField d.fields "file" = some (Val.vref coll bid))
    (hblob : st.fsfiles.find? (fun x => x.oid == bid) = some b)
    (hlen : b.length = a.content.length)
    (hmd5 : b.md5 = md5hash a.content)
    (hnofile : lookupField a.dict "file" = none)
    (hfields : ∀ kv ∈ a.dict ++ [("ags", Val.vstr ags)],
      lookupField d.fields kv.1 = some kv.2) :
    save_attachment st ags a =
      some ({ st with log := st.log ++ [WriteOp.attUpdate d.oid
          [("file", Val.vref coll bid), ("last_modified", Val.vint a.last_modified)]] },
        d.oid) := by
  have hfc : fileChanged st d a.content = some false := by
    simp only [fileChanged, hfile, hblob]
    rw [hlen, hmd5]
    simp
  have hfresh_file : lookupField (a.dict ++ [("ags", Val.vstr ags)]) "file" = none := by
    rw [lookupField_append, hnofile]
    rfl
  have hlm_stored : lookupField d.fields "last_modified" = some (Val.vint a.last_modified) :=
    hfields ("last_modified", Val.vint a.last_modified) (by simp [Attachment.dict])
  have hdiff : diffFields (a.dict ++ [("ags", Val.vstr ags)]) d.fields = [] :=
    diffFields_eq_nil _ _ hfields
  have happly : applySet d.fields [("file", Val.vref coll bid),
      ("last_modified", Val.vint a.last_modified)] = d.fields := by
    show setField (setField d.fields "file" (Val.vref coll bid)) "last_modified"
        (Val.vint a.last_modified) = d.fields
    rw [setField_id hfile, setField_id hlm_stored]
  have hupd : updateFirstDoc st.attachments d.oid [("file", Val.vref coll bid),
      ("last_modified", Val.vint a.last_modified)] = st.attachments :=
    updateFirstDoc_eq_self hfirst happly
  have hfresh_lm : lookupField (a.dict ++ [("ags", Val.vstr ags)]) "last_modified" =
      some (Val.vint a.last_modified) := rfl
  simp [save_attachment, hfind, hfc, hdiff, hfresh_file, hfile, hfresh_lm, hupd]

/-- C1 witness: a concrete store holding an attachment document and its
blob, re-synced with the identical attachment: one update, no put. -/
theorem C1_witness :
    (findByAgsField
        (DBState.attachments ⟨[⟨3, [("identifier", Val.vstr "A"), ("filename", Val.vstr "f"),
            ("last_modified", Val.vint 5), ("ags", Val.vstr "x"),
            ("file", Val.vref "fs.files" 7)]⟩], [],
          [⟨7, "f", "x", 2, md5hash [9, 9], [9, 9]⟩], 8, []⟩)
        "x" "identifier" (Val.vstr "A") =
      some ⟨3, [("identifier", Val.vstr "A"), ("filename", Val.vstr "f"),
        ("last_modified", Val.vint 5), ("ags", Val.vstr "x"),
        ("file", Val.vref "fs.files" 7)]⟩) ∧
    save_attachment ⟨[⟨3, [("identifier", Val.vstr "A"), ("filename", Val.vstr "f"),
        ("last_modified", Val.vint 5), ("ags", Val.vstr "x"),
        ("file", Val.vref "fs.files" 7)]⟩], [],
      [⟨7, "f", "x", 2, md5hash [9, 9], [9, 9]⟩], 8, []⟩ "x" ⟨"A", "f", [9, 9], 5, []⟩ =
      some (⟨[⟨3, [("identifier", Val.vstr "A"), ("filename", Val.vstr "f"),
          ("last_modified", Val.vint 5), ("ags", Val.vstr "x"),
          ("file", Val.vref "fs.files" 7)]⟩], [],
        [⟨7, "f", "x", 2, md5hash [9, 9], [9, 9]⟩], 8,
        [WriteOp.attUpdate 3 [("file", Val.vref "fs.files" 7),
          ("last_modified", Val.vint 5)]]⟩, 3) :=
  ⟨by decide,
    C1_resync_issues_update
      ⟨[⟨3, [("identifier", Val.vstr "A"), ("filename", Val.vstr "f"),
          ("last_modified", Val.vint 5), ("ags", Val.vstr "x"),
          ("file", Val.vref "fs.files" 7)]⟩], [],
        [⟨7, "f", "x", 2, md5hash [9, 9], [9, 9]⟩], 8, []⟩
      "x" "fs.files" ⟨"A", "f", [9, 9], 5, []⟩
      ⟨3, [("identifier", Val.vstr "A"), ("filename", Val.vstr "f"),
        ("last_modified", Val.vint 5), ("ags", Val.vstr "x"),
        ("file", Val.vref "fs.files" 7)]⟩ 7 ⟨7, "f", "x", 2, md5hash [9, 9], [9, 9]⟩
      (by decide) (by decide) (by decide) (by decide) (by decide) (by decide) (by decide)
      (by decide)⟩

/-! ### Claim C2: when a new blob version is created -/

lemma fileChanged_iff (st : DBState) (d : StoredDoc) (content : List Nat) (fc : Bool)
    (hfc : fileChanged st d content = some fc) :
    (fc = true ↔ ∃ coll bid b, lookupField d.fields "file" = some (Val.vref coll bid) ∧
      st.fsfiles.find? (fun x => x.oid == bid) = some b ∧
      (b.length ≠ content.length ∨ b.md5 ≠ md5hash content)) := by
  unfold fileChanged at hfc
  cases hfile : lookupField d.fields "file" with
  | none =>
      rw [hfile] at hfc
      have hfc2 : some false = some fc := hfc
      obtain rfl : false = fc := by injection hfc2
      constructor
      · intro h; cases h
      · rintro ⟨coll, bid, b, hf, -, -⟩
        cases hf
  | some v =>
      rw [hfile] at hfc
      cases v with
      | vref coll bid =>
          have hfc2 : (match st.fsfiles.find? (fun x => x.oid == bid) with
              | none => some false
              | some b => if (b.length != content.length) = true then some true
                  else some (b.md5 != md5hash content)) = some fc := hfc
          cases hblob : st.fsfiles.find? (fun x => x.oid == bid) with
          | none =>
              rw [hblob] at hfc2
              have hfc3 : some false = some fc := hfc2
              obtain rfl : false = fc := by injection hfc3
              constructor
              · intro h; cases h
              · rintro ⟨c2, b2, bb, hf, hb, -⟩
                injection hf with h1
                injection h1 with hc hb2
                subst hb2
                rw [hblob] at hb
                cases hb
          | some b =>
              rw [hblob] at hfc2
              have hfc3 : (if (b.length != content.length) = true then some true
                  else some (b.md5 != md5hash content)) = some fc := hfc2
              by_cases hlen : (b.length != content.length) = true
              · rw [if_pos hlen] at hfc3
                obtain rfl : true = fc := by injection hfc3
                constructor
                · intro _
                  exact ⟨coll, bid, b, rfl, hblob, Or.inl (by simpa using hlen)⟩
                · intro _; rfl
              · rw [if_neg hlen] at hfc3
                obtain rfl : (b.md5 != md5hash content) = fc := by injection hfc3
                constructor
                · intro h
                  exact ⟨coll, bid, b, rfl, hblob, Or.inr (by simpa using h)⟩
                · rintro ⟨c2, b2, bb, hf, hb, hne⟩
                  injection hf with h1
                  injection h1 with hc hb2
                  subst hb2
                  rw [hblob] at hb
                  obtain rfl : b = bb := by injection hb
                  rcases hne with h | h
                  · exact absurd (by simpa using h) hlen
                  · simpa using h
      | vstr s => exact absurd hfc (by simp)
      | vint n => exact absurd hfc (by simp)
      | vrefs c os => exact absurd hfc (by simp)
      | vsub n s => exact absurd hfc (by simp)

lemma save_attachment_stored_puts (st : DBState) (ags : String) (a : Attachment)
    (d : StoredDoc) (fc : Bool)
    (hfind : findByAgsField st.attachments ags "identifier" (Val.vstr a.identifier) = some d)
    (hfc : fileChanged st d a.content = some fc)
    (hdep : lookupField d.fields "depublication" = none) :
    ∃ st', save_attachment st ags a = some (st', d.oid) ∧
      st'.fsfiles = st.fsfiles ++ (if fc then
        [⟨st.nextId, a.filename, ags, a.content.length, md5hash a.content, a.content⟩]
        else []) := by
  have hfresh_lm : ∀ l : Fields, lookupField (a.dict ++ l) "last_modified" =
      some (Val.vint a.last_modified) := fun l => rfl
  cases fc with
  | false =>
      simp only [save_attachment, hfind, hfc, hdep, Option.isNone_none, Bool.and_true,
        Bool.false_eq_true, if_false, List.append_nil, if_neg (by simp : ¬False)]
      split
      · rw [hfresh_lm]
        exact ⟨_, rfl, by simp⟩
      · exact ⟨st, rfl, by simp⟩
  | true =>
      simp [save_attachment, hfind, hfc, hdep, hfresh_lm]

/-- C2 counterexample: a stored attachment whose `file` reference dangles —
no blob exists at the stored reference, so the claimed change predicate
holds — yet save_attachment creates no new blob version at all (the blob
store stays empty; only a document update is issued). -/
theorem C2_counterexample :
    lookupField (StoredDoc.fields ⟨0, [("identifier", Val.vstr "X"),
        ("filename", Val.vstr "g"), ("last_modified", Val.vint 3),
        ("ags", Val.vstr "city"), ("file", Val.vref "fs.files" 99)]⟩) "file" =
      some (Val.vref "fs.files" 99) ∧
    (DBState.fsfiles ⟨[⟨0, [("identifier", Val.vstr "X"), ("filename", Val.vstr "g"),
        ("last_modified", Val.vint 3), ("ags", Val.vstr "city"),
        ("file", Val.vref "fs.files" 99)]⟩], [], [], 1, []⟩).find?
      (fun x => x.oid == 99) = none ∧
    (save_attachment ⟨[⟨0, [("identifier", Val.vstr "X"), ("filename", Val.vstr "g"),
        ("last_modified", Val.vint 3), ("ags", Val.vstr "city"),
        ("file", Val.vref "fs.files" 99)]⟩], [], [], 1, []⟩ "city"
      ⟨"X", "g", [5], 3, []⟩).map (fun r => r.1.fsfiles) = some [] := by
  decide

/-- C2 (amended): for a stored attachment document carrying no
depublication marker, save_attachment creates a new blob version exactly
when the code's change predicate holds, and that predicate is: a blob
EXISTS at the stored reference and its byte length or its content digest
differs from the supplied content (the length comparison is performed
before the digest comparison).  When the stored document has no file
reference, or the reference dangles, the predicate is false and no blob is
created. -/
theorem C2_blob_change_predicate (st : DBState) (ags : String) (a : Attachment)
    (d : StoredDoc) (fc : Bool)
    (hfind : findByAgsField st.attachments ags "identifier" (Val.vstr a.identifier) = some d)
    (hdep : lookupField d.fields "depublication" = none)
    (hfc : fileChanged st d a.content = some fc) :
    (∃ st', save_attachment st ags a = some (st', d.oid) ∧
      st'.fsfiles = st.fsfiles ++ (if fc then
        [⟨st.nextId, a.filename, ags, a.content.length, md5hash a.content, a.content⟩]
        else [])) ∧
    (fc = true ↔ ∃ coll bid b, lookupField d.fields "file" = some (Val.vref coll bid) ∧
      st.fsfiles.find? (fun x => x.oid == bid) = some b ∧
      (b.length ≠ a.content.length ∨ b.md5 ≠ md5hash a.content)) :=
  ⟨save_attachment_stored_puts st ags a d fc hfind hfc hdep,
    fileChanged_iff st d a.content fc hfc⟩

/-- C2 witness: a stored attachment referencing a blob of different length;
the predicate holds and re-syncing creates exactly one new blob version. -/
theorem C2_witness :
    (findByAgsField [⟨1, [("identifier", Val.vstr "X"), ("filename", Val.vstr "g"),
          ("last_modified", Val.vint 3), ("ags", Val.vstr "x"),
          ("file", Val.vref "fs.files" 0)]⟩] "x" "identifier" (Val.vstr "X") =
        some ⟨1, [("identifier", Val.vstr "X"), ("filename", Val.vstr "g"),
          ("last_modified", Val.vint 3), ("ags", Val.vstr "x"),
          ("file", Val.vref "fs.files" 0)]⟩ ∧
      fileChanged ⟨[⟨1, [("identifier", Val.vstr "X"), ("filename", Val.vstr "g"),
          ("last_modified", Val.vint 3), ("ags", Val.vstr "x"),
          ("file", Val.vref "fs.files" 0)]⟩], [], [⟨0, "g", "x", 1, md5hash [1], [1]⟩], 2, []⟩
        ⟨1, [("identifier", Val.vstr "X"), ("filename", Val.vstr "g"),
          ("last_modified", Val.vint 3), ("ags", Val.vstr "x"),
          ("file", Val.vref "fs.files" 0)]⟩ [1, 2] = some true) ∧
    ((∃ st', save_attachment ⟨[⟨1, [("identifier", Val.vstr "X"), ("filename", Val.vstr "g"),
          ("last_modified", Val.vint 3), ("ags", Val.vstr "x"),
          ("file", Val.vref "fs.files" 0)]⟩], [], [⟨0, "g", "x", 1, md5hash [1], [1]⟩], 2, []⟩
        "x" ⟨"X", "g", [1, 2], 3, []⟩ = some (st', 1) ∧
        st'.fsfiles = [⟨0, "g", "x", 1, md5hash [1], [1]⟩] ++ (if true then
          [⟨2, "g", "x", (2 : Nat), md5hash [1, 2], [1, 2]⟩] else [])) ∧
      (true = true ↔ ∃ coll bid b,
        lookupField (StoredDoc.fields ⟨1, [("identifier", Val.vstr "X"),
            ("filename", Val.vstr "g"), ("last_modified", Val.vint 3),
            ("ags", Val.vstr "x"), ("file", Val.vref "fs.files" 0)]⟩) "file" =
          some (Val.vref coll bid) ∧
        (DBState.fsfiles ⟨[⟨1, [("identifier", Val.vstr "X"), ("filename", Val.vstr "g"),
            ("last_modified", Val.vint 3), ("ags", Val.vstr "x"),
            ("file", Val.vref "fs.files" 0)]⟩], [],
          [⟨0, "g", "x", 1, md5hash [1], [1]⟩], 2, []⟩).find? (fun x => x.oid == bid) =
          some b ∧
        (b.length ≠ ([1, 2] : List Nat).length ∨ b.md5 ≠ md5hash [1, 2]))) :=
  ⟨⟨by decide, by decide⟩,
    C2_blob_change_predicate
      ⟨[⟨1, [("identifier", Val.vstr "X"), ("filename", Val.vstr "g"),
          ("last_modified", Val.vint 3), ("ags", Val.vstr "x"),
          ("file", Val.vref "fs.files" 0)]⟩], [], [⟨0, "g", "x", 1, md5hash [1], [1]⟩], 2, []⟩
      "x" ⟨"X", "g", [1, 2], 3, []⟩
      ⟨1, [("identifier", Val.vstr "X"), ("filename", Val.vstr "g"),
        ("last_modified", Val.vint 3), ("ags", Val.vstr "x"),
        ("file", Val.vref "fs.files" 0)]⟩ true
      (by decide) (by decide) (by decide)⟩

/-! ### Claim C8: superordinate forward-reference tolerance -/

lemma unique_key_entry {fresh : Fields} {k : String} {v w : Val}
    (hcount : (fresh.filter (fun kv => kv.1 == k)).length ≤ 1)
    (hv : (k, v) ∈ fresh) (hw : (k, w) ∈ fresh) : v = w := by
  have hvf : (k, v) ∈ fresh.filter (fun kv => kv.1 == k) :=
    List.mem_filter.mpr ⟨hv, by simp⟩
  have hwf : (k, w) ∈ fresh.filter (fun kv => kv.1 == k) :=
    List.mem_filter.mpr ⟨hw, by simp⟩
  cases hf : fresh.filter (fun kv => kv.1 == k) with
  | nil => rw [hf] at hvf; simp at hvf
  | cons x rest =>
      rw [hf] at hvf hwf hcount
      obtain rfl : rest = [] := by
        cases rest with
        | nil => rfl
        | cons y t => simp at hcount
      simp only [List.mem_singleton] at hvf hwf
      rw [← hwf] at hvf
      injection hvf

lemma lookup_after_diff_update (sf fresh : Fields) (k : String) (v lmv : Val)
    (hk : k ≠ "last_modified")
    (hlook : lookupField fresh k = some v)
    (hcount : (fresh.filter (fun kv => kv.1 == k)).length ≤ 1) :
    lookupField (applySet sf (diffFields fresh sf ++ [("last_modified", lmv)])) k =
      some v := by
  have hstep : applySet sf (diffFields fresh sf ++ [("last_modified", lmv)]) =
      setField (applySet sf (diffFields fresh sf)) "last_modified" lmv := by
    rw [applySet_append]; rfl
  rw [hstep, lookupField_setField]
  rw [if_neg (by simpa using fun h : "last_modified" = k => hk h.symm)]
  by_cases hmem : (k, v) ∈ diffFields fresh sf
  · obtain ⟨s1, s2, hsplit⟩ := List.append_of_mem hmem
    have hcount2 : ((diffFields fresh sf).filter (fun kv => kv.1 == k)).length ≤ 1 := by
      calc ((diffFields fresh sf).filter (fun kv => kv.1 == k)).length
          = List.countP (fun kv => kv.1 == k) (diffFields fresh sf) :=
            (List.countP_eq_length_filter _ _).symm
        _ ≤ List.countP (fun kv => kv.1 == k) fresh :=
            (diffFields_sublist fresh sf).countP_le _
        _ = (fresh.filter (fun kv => kv.1 == k)).length := List.countP_eq_length_filter _ _
        _ ≤ 1 := hcount
    rw [hsplit] at hcount2
    have hkv : ((fun kv : String × Val => kv.1 == k) (k, v)) = true := by simp
    rw [List.filter_append, List.filter_cons, if_pos hkv, List.length_append,
      List.length_cons] at hcount2
    have h0 : (s1.filter (fun kv => kv.1 == k)).length = 0 ∧
        (s2.filter (fun kv => kv.1 == k)).length = 0 := by omega
    have hs2 : ∀ kv ∈ s2, kv.1 ≠ k := by
      intro kv hkv2 hkk
      have hin : kv ∈ s2.filter (fun kv => kv.1 == k) :=
        List.mem_filter.mpr ⟨hkv2, by simp [hkk]⟩
      rw [List.length_eq_zero.mp h0.2] at hin
      simp at hin
    rw [hsplit]
    exact lookupField_applySet_unique sf s1 s2 k v hs2
  · have hnok : ∀ kv ∈ diffFields fresh sf, kv.1 ≠ k := by
      intro kv hkv hkk
      obtain ⟨k1, v1⟩ := kv
      have hk1 : k1 = k := hkk
      subst hk1
      have hkvfresh : (k1, v1) ∈ fresh := (diffFields_sublist fresh sf).mem hkv
      have hveq : v1 = v := unique_key_entry hcount hkvfresh (lookupField_mem hlook)
      rw [hveq] at hkv
      exact hmem hkv
    rw [lookupField_applySet_of_no_key _ _ _ hnok]
    exact diffFields_not_mem_lookup (lookupField_mem hlook) hk hmem

lemma submissionUpsert_lookup (st1 : DBState) (stored : Option StoredDoc) (fresh2 : Fields)
    (k : String) (v : Val)
    (hk : k ≠ "last_modified")
    (hnodup : (st1.submissions.map (fun x => x.oid)).Nodup)
    (hmem : ∀ e, stored = some e → e ∈ st1.submissions)
    (hlook : lookupField fresh2 k = some v)
    (hcount : (fresh2.filter (fun kv => kv.1 == k)).length ≤ 1)
    (hlm : (lookupField fresh2 "last_modified").isSome = true) :
    ∃ st' oid, submissionUpsert st1 stored fresh2 = some (st', oid) ∧
      ∃ e ∈ st'.submissions, e.oid = oid ∧ lookupField e.fields k = some v := by
  cases stored with
  | none =>
      refine ⟨_, st1.nextId, rfl, ⟨st1.nextId, fresh2⟩, ?_, rfl, hlook⟩
      simp [submissionUpsert]
  | some d =>
      by_cases hset : diffFields fresh2 d.fields = []
      · have hred : submissionUpsert st1 (some d) fresh2 = some (st1, d.oid) := by
          simp [submissionUpsert, hset]
        refine ⟨st1, d.oid, hred, d, hmem d rfl, rfl, ?_⟩
        refine diffFields_not_mem_lookup (lookupField_mem hlook) hk ?_
        rw [hset]
        simp
      · cases hlmv : lookupField fresh2 "last_modified" with
        | none => rw [hlmv] at hlm; simp at hlm
        | some lmv =>
            have hred : submissionUpsert st1 (some d) fresh2 =
                some ({ st1 with
                    submissions := updateFirstDoc st1.submissions d.oid
                      (diffFields fresh2 d.fields ++ [("last_modified", lmv)]),
                    log := st1.log ++ [WriteOp.subUpdate d.oid
                      (diffFields fresh2 d.fields ++ [("last_modified", lmv)])] }, d.oid) := by
              simp [submissionUpsert, hset, hlmv]
            obtain ⟨e, he, hoid, hfieldse⟩ :=
              @updateFirstDoc_mem_result st1.submissions d
                (diffFields fresh2 d.fields ++ [("last_modified", lmv)]) hnodup (hmem d rfl)
            refine ⟨_, d.oid, hred, e, he, hoid, ?_⟩
            rw [hfieldse]
            exact lookup_after_diff_update d.fields fresh2 k v lmv hk hlook hcount

/-- C8: a Submission whose superordinate names a submission with no stored
document (by numeric_id within the ambient realm) syncs without failing and
persists the superordinate field as the literal embedded data; when the
superordinate's document does exist at sync time, the field is instead
persisted as a DBRef to that document. -/
theorem C8_superordinate_forward_ref (st : DBState) (ags : String) (sub : Submission)
    (nid : Int) (other : String)
    (hsup : sub.superordinate = some (nid, other))
    (hatts : sub.attachments = none)
    (hnodup : (st.submissions.map (fun x => x.oid)).Nodup)
    (hextra : ∀ kv ∈ sub.extra, kv.1 ≠ "superordinate") :
    (findByAgsField st.submissions ags "numeric_id" (Val.vint nid) = none →
      ∃ st' oid, save_submission st ags sub = some (st', oid) ∧
        ∃ e ∈ st'.submissions, e.oid = oid ∧
          lookupField e.fields "superordinate" = some (Val.vsub nid other)) ∧
    (∀ supd, findByAgsField st.submissions ags "numeric_id" (Val.vint nid) = some supd →
      ∃ st' oid, save_submission st ags sub = some (st', oid) ∧
        ∃ e ∈ st'.submissions, e.oid = oid ∧
          lookupField e.fields "superordinate" = some (Val.vref "submissions" supd.oid)) := by
  have hbase_nosup : ∀ kv ∈ sub.dictBase ++ [("ags", Val.vstr ags)],
      kv.1 ≠ "superordinate" := by
    intro kv hkv
    rcases List.mem_append.mp hkv with h1 | h2
    · simp only [Submission.dictBase, List.mem_cons] at h1
      rcases h1 with rfl | rfl | rfl | hx
      · simp
      · simp
      · simp
      · exact hextra _ hx
    · simp only [List.mem_singleton] at h2
      subst h2
      simp
  have hlooksup : ∀ supVal : Val,
      lookupField ((sub.dictBase ++ [("ags", Val.vstr ags)]) ++ [("superordinate", supVal)])
        "superordinate" = some supVal := by
    intro supVal
    rw [lookupField_append, lookupField_eq_none _ _ hbase_nosup]
    rfl
  have hcountsup : ∀ supVal : Val,
      ((((sub.dictBase ++ [("ags", Val.vstr ags)])) ++ [("superordinate", supVal)]).filter
        (fun kv => kv.1 == "superordinate")).length ≤ 1 := by
    intro supVal
    rw [List.filter_append]
    have h1 : (sub.dictBase ++ [("ags", Val.vstr ags)]).filter
        (fun kv => kv.1 == "superordinate") = [] :=
      List.filter_eq_nil.mpr (fun kv hkv => by simpa using hbase_nosup kv hkv)
    rw [h1]
    simp
  have hlmsup : ∀ l : Fields, (lookupField ((sub.dictBase ++ [("ags", Val.vstr ags)]) ++ l)
      "last_modified").isSome = true := fun l => rfl
  have hmemst : ∀ e : StoredDoc,
      findByAgsField st.submissions ags "numeric_id" (Val.vint sub.numeric_id) = some e →
        e ∈ st.submissions := by
    intro e he
    unfold findByAgsField at he
    exact List.mem_of_find?_eq_some he
  constructor
  · intro hsupfind
    have hred : save_submission st ags sub = submissionUpsert st
        (findByAgsField st.submissions ags "numeric_id" (Val.vint sub.numeric_id))
        ((sub.dictBase ++ [("ags", Val.vstr ags)]) ++
          [("superordinate", Val.vsub nid other)]) := by
      simp only [save_submission, hatts, hsup, hsupfind]
    rw [hred]
    exact submissionUpsert_lookup st _ _ "superordinate" (Val.vsub nid other)
      (by decide) hnodup hmemst (hlooksup _) (hcountsup _) (hlmsup _)
  · intro supd hsupfind
    have hred : save_submission st ags sub = submissionUpsert st
        (findByAgsField st.submissions ags "numeric_id" (Val.vint sub.numeric_id))
        ((sub.dictBase ++ [("ags", Val.vstr ags)]) ++
          [("superordinate", Val.vref "submissions" supd.oid)]) := by
      simp only [save_submission, hatts, hsup, hsupfind]
    rw [hred]
    exact submissionUpsert_lookup st _ _ "superordinate" (Val.vref "submissions" supd.oid)
      (by decide) hnodup hmemst (hlooksup _) (hcountsup _) (hlmsup _)

/-- C8 witness: syncing a submission whose superordinate (numeric_id 42)
has no stored document into an empty store succeeds and stores the literal
embedded superordinate data. -/
theorem C8_witness :
    ((Submission.superordinate ⟨1, "S", 4, [], none, some (42, "raw")⟩ = some (42, "raw")) ∧
      findByAgsField (DBState.submissions ⟨[], [], [], 0, []⟩) "x" "numeric_id"
        (Val.vint 42) = none) ∧
    (∃ st' oid, save_submission ⟨[], [], [], 0, []⟩ "x" ⟨1, "S", 4, [], none, some (42, "raw")⟩ =
        some (st', oid) ∧
      ∃ e ∈ st'.submissions, e.oid = oid ∧
        lookupField e.fields "superordinate" = some (Val.vsub 42 "raw")) :=
  ⟨⟨rfl, by decide⟩,
    (C8_superordinate_forward_ref ⟨[], [], [], 0, []⟩ "x" ⟨1, "S", 4, [], none, some (42, "raw")⟩
      42 "raw" rfl rfl (by simp) (by simp)).1 (by decide)⟩

end ScrapeARis
